import Mathlib

/-!
Shallow embedding of the `rviz_topmap` node-controller manager
(`src/node_manager.cpp` together with the declarations in
`src/node_controller.h`).

The manager owns a property tree whose children are node controllers.
Tree slot 0 is reserved for the "current" controller; the remaining slots
hold saved controllers.  The host GUI toolkit supplies the configuration
tree (`rviz::Config`), the property tree (`rviz::Property`), the plugin
factory and the Qt signal/slot machinery; those host facilities are
embedded here with their documented rviz/Qt semantics.  C++ heap identity
of controller objects is modelled by a numeric `id` field allocated from a
fresh-id counter in the manager state.
-/

namespace RvizTopmap

/-- Hierarchical key/value configuration tree supplied by the host
(`rviz::Config`): maps, lists and scalar values.  `invalid` is the invalid
config that failed lookups return. -/
inductive Config where
  | invalid : Config
  | scalar : String → Config
  | mapC : List (String × Config) → Config
  | listC : List Config → Config

/-- Host `rviz::Config::mapGetChild`: the child of a map config under a key,
invalid when the key is absent or the config is not a map. -/
def Config.mapGetChild : Config → String → Config
  | Config.mapC entries, key =>
    match entries.find? (fun e => e.1 = key) with
    | some e => e.2
    | none => Config.invalid
  | _, _ => Config.invalid

/-- Host `rviz::Config::mapGetString`: the string value of a map entry,
`some` exactly when the entry exists and is a scalar. -/
def Config.mapGetString (c : Config) (key : String) : Option String :=
  match c.mapGetChild key with
  | Config.scalar s => some s
  | _ => none

/-- The item list of a list config: what the `listLength` / `listChildAt`
iteration in `NodeManager::load` traverses (empty for a non-list). -/
def Config.listItems : Config → List Config
  | Config.listC l => l
  | _ => []

/-- A node controller instance (`NodeController` in `node_controller.h`).
`id` models the C++ heap identity of the object (pointer equality);
`class_id` and `name` are the rviz class identifier and property name;
`params` are the tuning parameters held by the controller's
sub-properties, as key/value pairs; `ready` records that
`NodeController::initialize` has run. -/
structure NodeController where
  id : Nat
  class_id : String
  name : String
  params : List (String × String)
  ready : Bool
deriving DecidableEq

/-- Modelled from the spec: `NodeController::save` (only declared in
`node_controller.h`; its implementation file is not under `src/`).
Per the spec it serializes the class id and the tuning parameters:
a map with a "Class" entry followed by one scalar entry per parameter. -/
def NodeController.save (c : NodeController) : Config :=
  Config.mapC (("Class", Config.scalar c.class_id) ::
    c.params.map (fun p => (p.1, Config.scalar p.2)))

/-- The parameter entries readable from a config: every scalar map entry
other than the "Class" field. -/
def Config.paramEntries : Config → List (String × String)
  | Config.mapC entries =>
    entries.filterMap (fun e =>
      if e.1 = "Class" then none
      else
        match e.2 with
        | Config.scalar v => some (e.1, v)
        | _ => none)
  | _ => []

/-- Modelled from the spec: `NodeController::load` (only declared in
`node_controller.h`; its implementation file is not under `src/`).
Per the spec it deserializes the tuning parameters from the config; the
class id of a live instance is fixed by the factory that created it. -/
def NodeController.load (c : NodeController) (config : Config) : NodeController :=
  { c with params := config.paramEntries }

/-- Modelled from the spec: `mimic` is a continuity hook delegated entirely
to subclasses (not even declared in the sources under `src/`); observable
here only as its invocation, recorded in `Effects`. -/
def NodeController.mimic (c : NodeController) (_previous : NodeController) : NodeController :=
  c

/-- Modelled from the spec: `transitionFrom` is a continuity hook delegated
entirely to subclasses (not even declared in the sources under `src/`);
observable here only as its invocation, recorded in `Effects`. -/
def NodeController.transitionFrom (c : NodeController) (_previous : NodeController) :
    NodeController :=
  c

/-- Observable side effects of a manager operation: which continuity hook
ran (with the ids of the new and previous controller), which controller's
destruction notification was disconnected, which controller was deleted,
and which Qt signals the manager emitted. -/
structure Effects where
  mimicked : Option (Nat × Nat) := none
  transitionedFrom : Option (Nat × Nat) := none
  disconnected : Option Nat := none
  deleted : Option Nat := none
  currentChanged : Bool := false
  configChanged : Bool := false
deriving DecidableEq

/-- The no-effect record: nothing invoked, deleted or emitted. -/
def Effects.none' : Effects := {}

/-- State of a `NodeManager`:
`factoryClasses` is the set of class ids the host plugin factory accepts;
`tree` is the child list of `root_property_` (slot 0 first);
`current` is the `current_` pointer (the controller value it refers to);
`connected` holds the ids whose `destroyed` signal is connected to the
`onCurrentDestroyed` slot; `nextId` is the fresh-identity allocator. -/
structure ManagerState where
  factoryClasses : List String
  tree : List NodeController
  current : Option NodeController
  connected : List Nat
  nextId : Nat
deriving DecidableEq

/-- A freshly constructed manager: empty tree, no current controller. -/
def mkManager (classes : List String) : ManagerState :=
  { factoryClasses := classes, tree := [], current := none, connected := [], nextId := 0 }

/-- Insertion into a child list at a position (position past the end appends). -/
def listInsertAt (l : List NodeController) (i : Nat) (a : NodeController) :
    List NodeController :=
  l.take i ++ a :: l.drop i

/-- Host `rviz::Property::addChild(child, index)`: an index that is negative
or beyond the child count is replaced by the child count (append at end). -/
def propertyAddChild (t : List NodeController) (child : NodeController) (index : Int) :
    List NodeController :=
  if index < 0 ∨ (t.length : Int) < index then t ++ [child]
  else listInsertAt t index.toNat child

/-- `NodeControllerContainer::addChild`: a requested index of 0 is coerced
to 1 (slot 0 is reserved for the current controller), then the host
`rviz::Property::addChild` runs. -/
def containerAddChild (t : List NodeController) (child : NodeController) (index : Int) :
    List NodeController :=
  propertyAddChild t child (if index = 0 then 1 else index)

/-- `NodeControllerContainer::addChildToFront`: host `addChild` at index 0. -/
def containerAddChildToFront (t : List NodeController) (child : NodeController) :
    List NodeController :=
  propertyAddChild t child 0

/-- Host `rviz::Property::childAt`: the child at an index, null when out of
range. -/
def childAt (t : List NodeController) (index : Int) : Option NodeController :=
  if index < 0 then none else t.get? index.toNat

/-- The host plugin factory (`rviz::PluginlibFactory::make`): a fresh
not-yet-ready instance of an accepted class id, or null (`none`) when the
factory does not know the class id. -/
def factoryMake (s : ManagerState) (class_id : String) : Option NodeController :=
  if class_id ∈ s.factoryClasses then
    some { id := s.nextId, class_id := class_id, name := "", params := [], ready := false }
  else none

/-- `NodeController::initialize` (declared in `node_controller.h`): one-time
setup with the host display context; modelled as marking the instance ready. -/
def NodeController.initCon (c : NodeController) : NodeController :=
  { c with ready := true }

/-- `NodeManager::create`: asks the factory for an instance, then calls
`initialize` on the result with no null check (the placeholder fallback is
commented out); `none` models the unguarded null-pointer dereference when
the factory fails.  On success the fresh-id counter advances. -/
def NodeManager.create (s : ManagerState) (class_id : String) :
    Option (NodeController × ManagerState) :=
  match factoryMake s class_id with
  | some view => some (view.initCon, { s with nextId := s.nextId + 1 })
  | none => none

/-- `NodeManager::getCurrent`: the `current_` pointer. -/
def NodeManager.getCurrent (s : ManagerState) : Option NodeController :=
  s.current

/-- `NodeManager::setCurrent`: runs `mimic`/`transitionFrom` on the new
controller against the previous current (when one exists), disconnects the
previous controller's destruction notification, renames the new controller
to "Current View", connects its destruction notification, installs it as
`current_`, adds it to the front of the tree, deletes the previous current
(Qt removes a deleted property from its parent's children), and emits
`currentChanged`. -/
def NodeManager.setCurrent (s : ManagerState) (new_current : NodeController)
    (mimic_view : Bool) : ManagerState × Effects :=
  let previous := s.current
  let nc0 :=
    match previous with
    | some p => if mimic_view then new_current.mimic p else new_current.transitionFrom p
    | none => new_current
  let connected1 :=
    match previous with
    | some p => s.connected.filter (fun j => j ≠ p.id)
    | none => s.connected
  let nc := { nc0 with name := "Current View" }
  let tree1 := containerAddChildToFront s.tree nc
  let tree2 :=
    match previous with
    | some p => tree1.filter (fun t => t.id ≠ p.id)
    | none => tree1
  ({ s with current := some nc, connected := nc.id :: connected1, tree := tree2 },
   { mimicked :=
       match previous with
       | some p => if mimic_view then some (new_current.id, p.id) else none
       | none => none,
     transitionedFrom :=
       match previous with
       | some p => if mimic_view then none else some (new_current.id, p.id)
       | none => none,
     disconnected := previous.map (fun p => p.id),
     deleted := previous.map (fun p => p.id),
     currentChanged := true,
     configChanged := false })

/-- `NodeManager::copy`: save the source to a fresh config, create a fresh
instance of the source's class, load the config into it. -/
def NodeManager.copy (s : ManagerState) (source : NodeController) :
    Option (NodeController × ManagerState) := do
  let config := source.save
  let (copy_of_source, s1) ← NodeManager.create s source.class_id
  pure (copy_of_source.load config, s1)

/-- `NodeManager::setCurrentFrom`: null source returns immediately; a source
identical (pointer equality) to the current controller does nothing; any
other source is deep-copied, the copy installed via `setCurrent`, and
`configChanged` emitted. -/
def NodeManager.setCurrentFrom (s : ManagerState) (source_view : Option NodeController) :
    Option (ManagerState × Effects) :=
  match source_view with
  | none => some (s, Effects.none')
  | some src =>
    if s.current.map (fun p => p.id) = some src.id then some (s, Effects.none')
    else do
      let (new_current, s1) ← NodeManager.copy s src
      let (s2, eff) := NodeManager.setCurrent s1 new_current false
      pure (s2, { eff with configChanged := true })

/-- `NodeManager::getNumViews`: the tree child count minus one, or zero when
the count is not positive. -/
def NodeManager.getNumViews (s : ManagerState) : Int :=
  let count : Int := s.tree.length
  if count ≤ 0 then 0 else count - 1

/-- `NodeManager::getViewAt`: a negative index is replaced by 0, then the
tree child at index + 1 is returned (skipping the reserved current slot). -/
def NodeManager.getViewAt (s : ManagerState) (index : Int) : Option NodeController :=
  let i := if index < 0 then 0 else index
  childAt s.tree (i + 1)

/-- `NodeManager::add`: a negative index is replaced by the tree child
count, a non-negative index is incremented past the reserved current slot;
then the container's `addChild` inserts the view. -/
def NodeManager.add (s : ManagerState) (view : NodeController) (index : Int) :
    ManagerState :=
  let idx : Int := if index < 0 then (s.tree.length : Int) else index + 1
  { s with tree := containerAddChild s.tree view idx }

/-- Host `rviz::Property::takeChildAt`: removes and returns the child at an
in-range index, returns null and leaves the tree alone otherwise. -/
def takeChildAt (s : ManagerState) (index : Int) :
    Option NodeController × ManagerState :=
  if 0 ≤ index ∧ index < (s.tree.length : Int) then
    (s.tree.get? index.toNat, { s with tree := s.tree.eraseIdx index.toNat })
  else (none, s)

/-- `NodeManager::takeAt`: negative index returns null with no change;
otherwise the tree child at index + 1 is taken. -/
def NodeManager.takeAt (s : ManagerState) (index : Int) :
    Option NodeController × ManagerState :=
  if index < 0 then (none, s)
  else takeChildAt s (index + 1)

/-- `NodeManager::take`: scans the saved views for the first one pointer-equal
to the argument and takes it out of the tree; null when absent. -/
def NodeManager.take (s : ManagerState) (view : NodeController) :
    Option NodeController × ManagerState :=
  match (List.range (NodeManager.getNumViews s).toNat).find?
      (fun (i : Nat) => (NodeManager.getViewAt s i).map (fun c => c.id) = some view.id) with
  | some i => takeChildAt s ((i : Int) + 1)
  | none => (none, s)

/-- `NodeManager::copyCurrentToList`: when a current controller exists, clone
it, rename the clone after its class, and append it with the container's
`addChild` (host default index -1, from the missing `node_manager.h`
declaration, modelled from the spec's "appends it to the saved list"). -/
def NodeManager.copyCurrentToList (s : ManagerState) : Option ManagerState :=
  match s.current with
  | some cur => do
    let (new_copy, s1) ← NodeManager.copy s cur
    let named := { new_copy with name := new_copy.class_id }
    pure { s1 with tree := containerAddChild s1.tree named (-1) }
  | none => pure s

/-- One pass of the saved-views loop in `NodeManager::load`: entries with a
"Class" string are created, loaded and added (default index -1 from the
missing `node_manager.h` declaration, i.e. appended); other entries are
skipped. -/
def loadSavedLoop (s : ManagerState) (items : List Config) : Option ManagerState :=
  match items with
  | [] => some s
  | cfg :: rest =>
    match cfg.mapGetString "Class" with
    | some cid => do
      let (v, s1) ← NodeManager.create s cid
      loadSavedLoop (NodeManager.add s1 (v.load cfg) (-1)) rest
    | none => loadSavedLoop s rest

/-- `NodeManager::load`: when the "Current" sub-config names a class, create
and load a controller from it and install it with `setCurrent`; then remove
every tree child except slot 0 and rebuild the saved list from the "Saved"
list sub-config.  `none` models the unguarded fault when a required
`create` dereferences a null factory result. -/
def NodeManager.load (s : ManagerState) (config : Config) : Option ManagerState := do
  let current_config := config.mapGetChild "Current"
  let s1 ←
    match current_config.mapGetString "Class" with
    | some cid => do
      let (nc, sA) ← NodeManager.create s cid
      pure (NodeManager.setCurrent sA (nc.load current_config) false).1
    | none => pure s
  let saved_views_config := config.mapGetChild "Saved"
  let s2 := { s1 with tree := s1.tree.take 1 }
  loadSavedLoop s2 saved_views_config.listItems

/-- The saved-views loop of `NodeManager::save`: for each index, dereference
`getViewAt` (null would fault, modelled by `none`) and save that view. -/
def collectSavedViews (s : ManagerState) : List Nat → Option (List Config)
  | [] => some []
  | i :: rest => do
    let v ← NodeManager.getViewAt s i
    let cs ← collectSavedViews s rest
    pure (v.save :: cs)

/-- `NodeManager::save`: writes the current controller's state under a
"Current" map child — dereferencing `getCurrent()` with no null check
(`none` models that fault) — and each saved view's state under a "Saved"
list child. -/
def NodeManager.save (s : ManagerState) : Option Config := do
  let cur ← s.current
  let items ← collectSavedViews s (List.range (NodeManager.getNumViews s).toNat)
  pure (Config.mapC [("Current", cur.save), ("Saved", Config.listC items)])

/-- `NodeManager::initialize`: installs a freshly created "rviz/Orbit"
controller as current. -/
def NodeManager.initMgr (s : ManagerState) : Option ManagerState := do
  let (c, s1) ← NodeManager.create s "rviz/Orbit"
  pure (NodeManager.setCurrent s1 c false).1

/-- `NodeManager::setCurrentNodeControllerType`: installs a freshly created
controller of the given class as current, mimicking the previous one. -/
def NodeManager.setCurrentNodeControllerType (s : ManagerState) (new_class_id : String) :
    Option ManagerState := do
  let (c, s1) ← NodeManager.create s new_class_id
  pure (NodeManager.setCurrent s1 c true).1

/-- External destruction of the current controller by the host (Qt `delete`
of the object `current_` points at): the object leaves its parent's child
list, and when its `destroyed` signal is connected the `onCurrentDestroyed`
slot nulls `current_` and the connection dies with the object. -/
def externalDestroyCurrent (s : ManagerState) : ManagerState :=
  match s.current with
  | some c =>
    { s with tree := s.tree.filter (fun t => t.id ≠ c.id),
             current := if c.id ∈ s.connected then none else s.current,
             connected := s.connected.filter (fun j => j ≠ c.id) }
  | none => s

/-! Concrete sample controllers and a sample manager state, used to witness
theorems with hypotheses. -/

def conA : NodeController :=
  { id := 0, class_id := "rviz/Orbit", name := "Current View",
    params := [("NearClip", "0.01")], ready := true }

def conB : NodeController :=
  { id := 1, class_id := "rviz/XY", name := "XY",
    params := [("StereoEnable", "false")], ready := true }

def conC : NodeController :=
  { id := 2, class_id := "rviz/Orbit", name := "Orbit", params := [], ready := true }

def conD : NodeController :=
  { id := 9, class_id := "rviz/XY", name := "",
    params := [("StereoSwap", "true")], ready := true }

def sampleS : ManagerState :=
  { factoryClasses := ["rviz/Orbit", "rviz/XY"], tree := [conA, conB, conC],
    current := some conA, connected := [0], nextId := 3 }

/-! Basic lemmas about the host tree primitives. -/

theorem listInsertAt_length (l : List NodeController) (a : NodeController) :
    listInsertAt l l.length a = l ++ [a] := by
  simp [listInsertAt]

theorem listInsertAt_zero (l : List NodeController) (a : NodeController) :
    listInsertAt l 0 a = a :: l := by
  simp [listInsertAt]

theorem containerAddChildToFront_eq (t : List NodeController) (c : NodeController) :
    containerAddChildToFront t c = c :: t := by
  unfold containerAddChildToFront propertyAddChild
  rw [if_neg (by push_neg; exact ⟨by omega, by omega⟩)]
  simpa using listInsertAt_zero t c

theorem filterMap_scalar_params (l : List (String × String))
    (h : ∀ p ∈ l, p.1 ≠ "Class") :
    (l.map (fun p => (p.1, Config.scalar p.2))).filterMap
      (fun e => if e.1 = "Class" then none
        else
          match e.2 with
          | Config.scalar v => some (e.1, v)
          | _ => none) = l := by
  induction l with
  | nil => rfl
  | cons a t ih =>
    have ha : a.1 ≠ "Class" := h a (by simp)
    have ht := ih (fun p hp => h p (by simp [hp]))
    simp [List.filterMap_cons, ha, ht]

theorem paramEntries_save (x : NodeController) (hwf : ∀ p ∈ x.params, p.1 ≠ "Class") :
    (x.save).paramEntries = x.params := by
  have h := filterMap_scalar_params x.params hwf
  simp only [NodeController.save, Config.paramEntries, List.filterMap_cons]
  simpa using h

/-- C3: `getNumViews` never counts the reserved current slot: it equals the
number of tree children past slot 0, i.e. the total child count minus one
when that total is positive and zero when the total is not positive. -/
theorem C3_getNumViews_skips_current_slot (s : ManagerState) :
    NodeManager.getNumViews s = ((s.tree.drop 1).length : Int) ∧
    NodeManager.getNumViews s = max 0 ((s.tree.length : Int) - 1) := by
  unfold NodeManager.getNumViews
  cases s.tree with
  | nil => simp
  | cons a l =>
    constructor <;> simp

/-- C4: for every negative index, `getViewAt` behaves as `getViewAt 0`
(returning the child at tree slot 1, the first saved slot) and `takeAt`
returns the null sentinel leaving the state untouched; both operations are
total, so neither raises. -/
theorem C4_negative_index_normalizes (s : ManagerState) (i : Int) (h : i < 0) :
    NodeManager.getViewAt s i = NodeManager.getViewAt s 0 ∧
    NodeManager.getViewAt s i = childAt s.tree 1 ∧
    NodeManager.takeAt s i = (none, s) := by
  refine ⟨?_, ?_, ?_⟩
  · simp [NodeManager.getViewAt, if_pos h]
  · simp [NodeManager.getViewAt, if_pos h]
  · simp [NodeManager.takeAt, if_pos h]

/-- Witness for C4 at index -1 in the sample state. -/
theorem C4_negative_index_normalizes_witness :
    (-1 : Int) < 0 ∧
    (NodeManager.getViewAt sampleS (-1) = NodeManager.getViewAt sampleS 0 ∧
     NodeManager.getViewAt sampleS (-1) = childAt sampleS.tree 1 ∧
     NodeManager.takeAt sampleS (-1) = (none, sampleS)) :=
  ⟨by decide, C4_negative_index_normalizes sampleS (-1) (by decide)⟩

/-- C8: `create` dereferences the factory result with no null check (the
placeholder fallback is commented out), so it faults exactly when the
factory returns null; when the factory returns a controller, `create`
returns that controller initialized, advancing the fresh-id allocator. -/
theorem C8_create_unguarded_dereference (s : ManagerState) (cid : String) :
    (NodeManager.create s cid = none ↔ factoryMake s cid = none) ∧
    (factoryMake s cid = none ↔ cid ∉ s.factoryClasses) ∧
    (∀ v, factoryMake s cid = some v →
      NodeManager.create s cid = some (v.initCon, { s with nextId := s.nextId + 1 })) := by
  refine ⟨?_, ?_, ?_⟩
  · cases h : factoryMake s cid <;> simp [NodeManager.create, h]
  · unfold factoryMake
    by_cases h : cid ∈ s.factoryClasses <;> simp [h]
  · intro v hv
    simp [NodeManager.create, hv]

/-- Witness for C8: in the sample state the factory accepts "rviz/Orbit" and
`create` returns the initialized fresh instance. -/
theorem C8_create_unguarded_dereference_witness :
    factoryMake sampleS "rviz/Orbit" =
      some { id := 3, class_id := "rviz/Orbit", name := "", params := [], ready := false } ∧
    NodeManager.create sampleS "rviz/Orbit" =
      some ({ id := 3, class_id := "rviz/Orbit", name := "", params := [],
              ready := false : NodeController}.initCon,
            { sampleS with nextId := sampleS.nextId + 1 }) :=
  ⟨by decide,
   (C8_create_unguarded_dereference sampleS "rviz/Orbit").2.2 _ (by decide)⟩

/-- C6 as stated is false: with three tree children (current plus two saved
views), `add` with index -1 appends the view at tree slot 3 — the end of the
tree — so it neither lands in the first saved slot (tree slot 1) nor is the
insertion rejected. -/
theorem C6_add_negative_counterexample :
    ¬ (((NodeManager.add sampleS conD (-1)).tree.get? 1 = some conD) ∨
       (NodeManager.add sampleS conD (-1)).tree = sampleS.tree) := by
  decide

/-- C6 amended: for every negative index, `add` appends the view at the end
of the tree (after all saved slots); for every non-negative index it inserts
at tree slot index + 1, clamped to the end when index + 1 exceeds the child
count, so it skips the reserved current slot. -/
theorem C6_add_amended (s : ManagerState) (v : NodeController) (idx : Int) :
    (idx < 0 → (NodeManager.add s v idx).tree = s.tree ++ [v]) ∧
    (0 ≤ idx → (NodeManager.add s v idx).tree =
      listInsertAt s.tree (min (idx.toNat + 1) s.tree.length) v) := by
  constructor
  · intro h
    simp only [NodeManager.add, containerAddChild, propertyAddChild, if_pos h]
    split_ifs with h1 h2 h3 <;> first
      | rfl
      | (exfalso; omega)
      | (have hl : ((s.tree.length : Int)).toNat = s.tree.length := by omega
         rw [hl, listInsertAt_length])
  · intro h
    simp only [NodeManager.add, containerAddChild, propertyAddChild, if_neg (by omega : ¬ idx < 0)]
    split_ifs with h1 h2 h3
    · exfalso; omega
    · exfalso; omega
    · have hm : min (idx.toNat + 1) s.tree.length = s.tree.length := by
        rcases h3 with h3 | h3 <;> omega
      rw [hm, listInsertAt_length]
    · push_neg at h3
      have hm : min (idx.toNat + 1) s.tree.length = (idx + 1).toNat := by omega
      rw [hm]

/-- Witness for C6 amended at index -1 and index 0 in the sample state. -/
theorem C6_add_amended_witness :
    ((-1 : Int) < 0 ∧ (NodeManager.add sampleS conD (-1)).tree = sampleS.tree ++ [conD]) ∧
    ((0 : Int) ≤ 0 ∧ (NodeManager.add sampleS conD 0).tree =
      listInsertAt sampleS.tree (min ((0 : Int).toNat + 1) sampleS.tree.length) conD) :=
  ⟨⟨by decide, (C6_add_amended sampleS conD (-1)).1 (by decide)⟩,
   ⟨by decide, (C6_add_amended sampleS conD 0).2 (by decide)⟩⟩

/-- C1: for a controller whose class id the factory accepts (and whose
identity is not the next fresh id, as holds for every live object),
`copy` returns a distinct instance of the same class id whose serialized
state equals the source's; it is built by the save / create / load round
trip spelled out in `NodeManager.copy`. -/
theorem C1_copy_preserves_serialized_state (s : ManagerState) (x : NodeController)
    (hclass : x.class_id ∈ s.factoryClasses)
    (hfresh : x.id ≠ s.nextId)
    (hwf : ∀ p ∈ x.params, p.1 ≠ "Class") :
    ∃ c s', NodeManager.copy s x = some (c, s') ∧
      c.id ≠ x.id ∧ c.class_id = x.class_id ∧ c.params = x.params ∧
      c.save = x.save := by
  have hcopy : NodeManager.copy s x =
      some (({ id := s.nextId, class_id := x.class_id, name := "", params := [],
               ready := false : NodeController }).initCon.load x.save,
            { s with nextId := s.nextId + 1 }) := by
    unfold NodeManager.copy NodeManager.create factoryMake
    rw [if_pos hclass]
    rfl
  refine ⟨_, _, hcopy, ?_, rfl, ?_, ?_⟩
  · simpa [NodeController.load, NodeController.initCon] using Ne.symm hfresh
  · simpa [NodeController.load, NodeController.initCon] using paramEntries_save x hwf
  · simp only [NodeController.load, NodeController.initCon]
    rw [paramEntries_save x hwf]
    simp [NodeController.save]

/-- Witness for C1: copying the saved view `conB` in the sample state. -/
theorem C1_copy_preserves_serialized_state_witness :
    (conB.class_id ∈ sampleS.factoryClasses ∧ conB.id ≠ sampleS.nextId ∧
      (∀ p ∈ conB.params, p.1 ≠ "Class")) ∧
    (∃ c s', NodeManager.copy sampleS conB = some (c, s') ∧
      c.id ≠ conB.id ∧ c.class_id = conB.class_id ∧ c.params = conB.params ∧
      c.save = conB.save) :=
  ⟨⟨by decide, by decide, by decide⟩,
   C1_copy_preserves_serialized_state sampleS conB (by decide) (by decide) (by decide)⟩

/-- C5: `setCurrentFrom` called with a source pointer-equal to the current
controller returns before copying anything: the state is returned unchanged
and the no-effect record shows that neither `configChanged` nor
`currentChanged` is emitted. -/
theorem C5_setCurrentFrom_same_is_noop (s : ManagerState) (src cur : NodeController)
    (hcur : s.current = some cur) (hsame : src.id = cur.id) :
    NodeManager.setCurrentFrom s (some src) = some (s, Effects.none') ∧
    Effects.none'.configChanged = false ∧ Effects.none'.currentChanged = false := by
  refine ⟨?_, rfl, rfl⟩
  unfold NodeManager.setCurrentFrom
  rw [hcur]
  simp [hsame]

/-- Witness for C5: the sample state's current controller passed back to
`setCurrentFrom`. -/
theorem C5_setCurrentFrom_same_is_noop_witness :
    (sampleS.current = some conA ∧ conA.id = conA.id) ∧
    (NodeManager.setCurrentFrom sampleS (some conA) = some (sampleS, Effects.none') ∧
     Effects.none'.configChanged = false ∧ Effects.none'.currentChanged = false) :=
  ⟨⟨by decide, rfl⟩, C5_setCurrentFrom_same_is_noop sampleS conA conA (by decide) rfl⟩

/-- C2: `setCurrent(new, false)` with a previous current and a new controller
that is a different instance: the new controller becomes current, is renamed
"Current View" and sits at the front of the tree; `transitionFrom(previous)`
was invoked (`mimic` only when the flag is true); the previous controller's
destruction notification was disconnected; the previous instance was deleted
and left the tree; and `currentChanged` is emitted. -/
theorem C2_setCurrent_replaces_previous (s : ManagerState) (new_c p : NodeController)
    (hprev : s.current = some p) (hne : new_c.id ≠ p.id) :
    ((NodeManager.setCurrent s new_c false).1.current.map (fun c => c.id) =
      some new_c.id) ∧
    ((NodeManager.setCurrent s new_c false).1.current.map (fun c => c.name) =
      some "Current View") ∧
    ((NodeManager.setCurrent s new_c false).1.tree.head?.map (fun c => c.id) =
      some new_c.id) ∧
    (NodeManager.setCurrent s new_c false).2.transitionedFrom = some (new_c.id, p.id) ∧
    (NodeManager.setCurrent s new_c false).2.mimicked = none ∧
    (NodeManager.setCurrent s new_c true).2.mimicked = some (new_c.id, p.id) ∧
    (NodeManager.setCurrent s new_c false).2.disconnected = some p.id ∧
    (NodeManager.setCurrent s new_c false).2.deleted = some p.id ∧
    (∀ c ∈ (NodeManager.setCurrent s new_c false).1.tree, c.id ≠ p.id) ∧
    (p.id ∉ (NodeManager.setCurrent s new_c false).1.connected) ∧
    (NodeManager.setCurrent s new_c false).2.currentChanged = true := by
  simp only [NodeManager.setCurrent, hprev, containerAddChildToFront_eq,
    NodeController.transitionFrom, NodeController.mimic]
  refine ⟨by simp, by simp, ?_, by simp, by simp, by simp, by simp, by simp, ?_, ?_, by simp⟩
  · simp [List.filter_cons, hne]
  · intro c hc
    simp only [List.filter_cons] at hc
    rw [if_pos (by simpa using hne)] at hc
    rcases List.mem_cons.mp hc with h | h
    · simpa [h] using hne
    · simpa using (List.mem_filter.mp h).2
  · intro hmem
    rcases List.mem_cons.mp hmem with h | h
    · exact hne (by simpa using h.symm)
    · exact (by simpa using (List.mem_filter.mp h).2 : p.id ≠ p.id) rfl

/-- Witness for C2: installing `conD` over the sample state's current `conA`. -/
theorem C2_setCurrent_replaces_previous_witness :
    (sampleS.current = some conA ∧ conD.id ≠ conA.id) ∧
    ((NodeManager.setCurrent sampleS conD false).1.current.map (fun c => c.id) =
      some conD.id) ∧
    ((NodeManager.setCurrent sampleS conD false).1.current.map (fun c => c.name) =
      some "Current View") ∧
    ((NodeManager.setCurrent sampleS conD false).1.tree.head?.map (fun c => c.id) =
      some conD.id) ∧
    (NodeManager.setCurrent sampleS conD false).2.transitionedFrom =
      some (conD.id, conA.id) ∧
    (NodeManager.setCurrent sampleS conD false).2.mimicked = none ∧
    (NodeManager.setCurrent sampleS conD true).2.mimicked = some (conD.id, conA.id) ∧
    (NodeManager.setCurrent sampleS conD false).2.disconnected = some conA.id ∧
    (NodeManager.setCurrent sampleS conD false).2.deleted = some conA.id ∧
    (∀ c ∈ (NodeManager.setCurrent sampleS conD false).1.tree, c.id ≠ conA.id) ∧
    (conA.id ∉ (NodeManager.setCurrent sampleS conD false).1.connected) ∧
    (NodeManager.setCurrent sampleS conD false).2.currentChanged = true :=
  ⟨⟨by decide, by decide⟩,
   C2_setCurrent_replaces_previous sampleS conD conA (by decide) (by decide)⟩

/-! Machinery for the save/load round trip. -/

/-- The serializable observation of a controller: its class id and tuning
parameters. -/
def ctlObs (c : NodeController) : String × List (String × String) :=
  (c.class_id, c.params)

theorem add_neg_state (s : ManagerState) (v : NodeController) :
    NodeManager.add s v (-1) = { s with tree := s.tree ++ [v] } := by
  unfold NodeManager.add
  rw [if_pos (by omega : (-1 : Int) < 0)]
  simp only [containerAddChild, propertyAddChild]
  congr 1
  split_ifs with h1 h2 h3 <;> first
    | rfl
    | (exfalso; omega)
    | (have hl : ((s.tree.length : Int)).toNat = s.tree.length := by omega
       rw [hl, listInsertAt_length])

theorem mapGetString_save (v : NodeController) :
    (v.save).mapGetString "Class" = some v.class_id := by
  simp [NodeController.save, Config.mapGetString, Config.mapGetChild]

theorem collectSavedViews_range' (s : ManagerState) :
    ∀ (n j : Nat), j + 1 + n ≤ s.tree.length →
      collectSavedViews s (List.range' j n) =
        some (((s.tree.drop (j + 1)).take n).map NodeController.save) := by
  intro n
  induction n with
  | zero => intro j _; simp [collectSavedViews]
  | succ n ih =>
    intro j hj
    have hjlt : j + 1 < s.tree.length := by omega
    have hget : NodeManager.getViewAt s (j : Int) = some (s.tree.get ⟨j + 1, hjlt⟩) := by
      unfold NodeManager.getViewAt childAt
      rw [if_neg (by omega), if_neg (by omega)]
      have : ((j : Int) + 1).toNat = j + 1 := by omega
      rw [this]
      exact List.get?_eq_get hjlt
    have hdrop : s.tree.drop (j + 1) =
        s.tree.get ⟨j + 1, hjlt⟩ :: s.tree.drop (j + 1 + 1) := by
      rw [List.drop_eq_getElem_cons hjlt]
      simp [List.get_eq_getElem]
    rw [List.range'_succ]
    simp only [collectSavedViews, hget, ih (j + 1) (by omega), Option.bind_eq_bind,
      Option.some_bind]
    rw [hdrop, List.take_succ_cons, List.map_cons]
    rfl

theorem save_eq (s : ManagerState) (cur : NodeController) (hcur : s.current = some cur) :
    NodeManager.save s =
      some (Config.mapC [("Current", cur.save),
        ("Saved", Config.listC ((s.tree.drop 1).map NodeController.save))]) := by
  unfold NodeManager.save
  rw [hcur]
  cases htree : s.tree with
  | nil =>
    simp [NodeManager.getNumViews, htree, collectSavedViews]
  | cons a t =>
    have hn : (NodeManager.getNumViews s).toNat = t.length := by
      simp only [NodeManager.getNumViews, htree, List.length_cons]
      split_ifs with h <;> omega
    rw [hn, List.range_eq_range']
    rw [collectSavedViews_range' s t.length 0 (by simp [htree]; omega)]
    simp [htree]

/-- The controller that `create` followed by `load cfg` produces when the
factory accepts the class id and `cfg` is `v.save`. -/
def freshLoaded (n : Nat) (v : NodeController) : NodeController :=
  { id := n, class_id := v.class_id, name := "", params := v.params, ready := true }

theorem create_some (s : ManagerState) (cid : String) (h : cid ∈ s.factoryClasses) :
    NodeManager.create s cid =
      some ({ id := s.nextId, class_id := cid, name := "", params := [], ready := true },
            { s with nextId := s.nextId + 1 }) := by
  unfold NodeManager.create factoryMake
  rw [if_pos h]
  rfl

theorem loadSavedLoop_obs (vs : List NodeController) :
    ∀ st : ManagerState,
      (∀ v ∈ vs, v.class_id ∈ st.factoryClasses) →
      (∀ v ∈ vs, ∀ p ∈ v.params, p.1 ≠ "Class") →
      ∃ st' ws, loadSavedLoop st (vs.map NodeController.save) = some st' ∧
        st'.current = st.current ∧ st'.factoryClasses = st.factoryClasses ∧
        st'.connected = st.connected ∧
        st'.tree = st.tree ++ ws ∧ ws.map ctlObs = vs.map ctlObs := by
  induction vs with
  | nil =>
    intro st _ _
    exact ⟨st, [], rfl, rfl, rfl, rfl, by simp, rfl⟩
  | cons v vs ih =>
    intro st hc hw
    have hwv : ∀ p ∈ v.params, p.1 ≠ "Class" := hw v (by simp)
    have hstep : loadSavedLoop st ((v :: vs).map NodeController.save) =
        loadSavedLoop
          { st with nextId := st.nextId + 1,
                    tree := st.tree ++ [freshLoaded st.nextId v] }
          (vs.map NodeController.save) := by
      simp only [List.map_cons, loadSavedLoop, mapGetString_save,
        create_some st v.class_id (hc v (by simp)), Option.bind_eq_bind, Option.some_bind]
      rw [add_neg_state]
      simp only [NodeController.load, freshLoaded]
      rw [paramEntries_save v hwv]
    obtain ⟨st', ws, hrun, hcur, hfac, hconn, htree, hobs⟩ :=
      ih { st with nextId := st.nextId + 1, tree := st.tree ++ [freshLoaded st.nextId v] }
        (fun u hu => hc u (by simp [hu])) (fun u hu => hw u (by simp [hu]))
    refine ⟨st', freshLoaded st.nextId v :: ws, ?_, ?_, ?_, ?_, ?_, ?_⟩
    · rw [hstep]; exact hrun
    · exact hcur
    · exact hfac
    · exact hconn
    · rw [htree]; simp
    · simp only [List.map_cons, hobs]
      rfl

theorem setCurrent_take1 (s : ManagerState) (nc : NodeController)
    (h : ∀ p, s.current = some p → p.id ≠ nc.id) :
    (NodeManager.setCurrent s nc false).1.tree.take 1 =
      [{ nc with name := "Current View" }] ∧
    (NodeManager.setCurrent s nc false).1.current =
      some { nc with name := "Current View" } ∧
    (NodeManager.setCurrent s nc false).1.factoryClasses = s.factoryClasses := by
  unfold NodeManager.setCurrent
  cases hc : s.current with
  | none => simp [containerAddChildToFront_eq, NodeController.transitionFrom]
  | some p =>
    have hne : ({ nc with name := "Current View" } : NodeController).id ≠ p.id := by
      simpa using fun hEq => (h p hc) hEq.symm
    simp [containerAddChildToFront_eq, NodeController.transitionFrom,
      List.filter_cons, hne]

/-- C7: saving a manager state and loading the produced config reconstructs
an equivalent state.  `save` writes the current controller under a
"Current" map child carrying its "Class" id and the saved views under a
"Saved" list child; `load` rebuilds the current controller from the
"Current" sub-config's "Class" field, clears all saved slots, and recreates
every "Saved" entry, so the classes and parameters of the current and saved
controllers round-trip. -/
theorem C7_save_load_roundtrip (s s2 : ManagerState) (cur : NodeController)
    (hcur : s.current = some cur)
    (hclass : cur.class_id ∈ s2.factoryClasses)
    (hvclass : ∀ v ∈ s.tree.drop 1, v.class_id ∈ s2.factoryClasses)
    (hwf : ∀ p ∈ cur.params, p.1 ≠ "Class")
    (hvwf : ∀ v ∈ s.tree.drop 1, ∀ p ∈ v.params, p.1 ≠ "Class")
    (hfresh : ∀ p, s2.current = some p → p.id ≠ s2.nextId) :
    ∃ cfg s3, NodeManager.save s = some cfg ∧
      (cfg.mapGetChild "Current").mapGetString "Class" = some cur.class_id ∧
      cfg.mapGetChild "Saved" =
        Config.listC ((s.tree.drop 1).map NodeController.save) ∧
      NodeManager.load s2 cfg = some s3 ∧
      s3.current.map ctlObs = s.current.map ctlObs ∧
      (s3.tree.drop 1).map ctlObs = (s.tree.drop 1).map ctlObs := by
  have hsave := save_eq s cur hcur
  have hgetCur : (Config.mapC [("Current", cur.save),
      ("Saved", Config.listC ((s.tree.drop 1).map NodeController.save))]).mapGetChild
        "Current" = cur.save := by
    simp [Config.mapGetChild]
  have hgetSaved : (Config.mapC [("Current", cur.save),
      ("Saved", Config.listC ((s.tree.drop 1).map NodeController.save))]).mapGetChild
        "Saved" = Config.listC ((s.tree.drop 1).map NodeController.save) := by
    simp [Config.mapGetChild]
  -- the controller rebuilt for the "Current" slot
  have hparams := paramEntries_save cur hwf
  obtain ⟨htake, hcur1, hfac1⟩ := setCurrent_take1 { s2 with nextId := s2.nextId + 1 }
    (({ id := s2.nextId, class_id := cur.class_id, name := "", params := [],
        ready := true } : NodeController).load cur.save)
    (fun p hp => hfresh p hp)
  set s1v := (NodeManager.setCurrent { s2 with nextId := s2.nextId + 1 }
    (({ id := s2.nextId, class_id := cur.class_id, name := "", params := [],
        ready := true } : NodeController).load cur.save) false).1 with hs1v
  obtain ⟨st', ws, hrun, hcur3, hfac3, hconn3, htree3, hobs3⟩ :=
    loadSavedLoop_obs (s.tree.drop 1) { s1v with tree := s1v.tree.take 1 }
      (fun u hu => by
        show u.class_id ∈ s1v.factoryClasses
        rw [hs1v, hfac1]
        exact hvclass u hu)
      hvwf
  refine ⟨_, st', hsave, ?_, hgetSaved, ?_, ?_, ?_⟩
  · rw [hgetCur, mapGetString_save]
  · simp only [NodeManager.load, hgetCur, mapGetString_save,
      create_some s2 cur.class_id hclass, Option.bind_eq_bind, Option.some_bind,
      hgetSaved, Config.listItems]
    exact hrun
  · rw [hcur3]
    show s1v.current.map ctlObs = s.current.map ctlObs
    rw [hs1v, hcur1, hcur]
    simp [ctlObs, NodeController.load, hparams]
  · rw [htree3]
    show (((s1v.tree.take 1) ++ ws).drop 1).map ctlObs = _
    rw [hs1v, htake]
    simpa using hobs3

/-- Witness for C7: round-tripping the sample state through save and load. -/
theorem C7_save_load_roundtrip_witness :
    ∃ cfg s3, NodeManager.save sampleS = some cfg ∧
      (cfg.mapGetChild "Current").mapGetString "Class" = some conA.class_id ∧
      cfg.mapGetChild "Saved" =
        Config.listC ((sampleS.tree.drop 1).map NodeController.save) ∧
      NodeManager.load sampleS cfg = some s3 ∧
      s3.current.map ctlObs = sampleS.current.map ctlObs ∧
      (s3.tree.drop 1).map ctlObs = (sampleS.tree.drop 1).map ctlObs :=
  C7_save_load_roundtrip sampleS sampleS conA (by decide) (by decide) (by decide)
    (by decide) (by decide)
    (fun p hp => by
      have hpa : p = conA := by simpa [sampleS] using hp.symm
      subst hpa
      decide)

/-! The manager's reachable states.  `Step` covers the public operations of
`NodeManager` (each a transition of the manager state); `Reachable` starts
from a freshly constructed manager on which `initialize` ran, as the host
does before using the manager.  `ReachableExt` additionally allows the host
to destroy the current controller externally (a Qt-level event outside the
manager's own interface, observed through `onCurrentDestroyed`). -/

inductive Step : ManagerState → ManagerState → Prop where
  | setType (s : ManagerState) (cid : String) (s' : ManagerState) :
      NodeManager.setCurrentNodeControllerType s cid = some s' → Step s s'
  | fromView (s : ManagerState) (src : Option NodeController) (s' : ManagerState) :
      (NodeManager.setCurrentFrom s src).map (fun r => r.1) = some s' → Step s s'
  | copyList (s s' : ManagerState) :
      NodeManager.copyCurrentToList s = some s' → Step s s'
  | addView (s : ManagerState) (v : NodeController) (idx : Int) :
      v.id < s.nextId → Step s (NodeManager.add s v idx)
  | takeView (s : ManagerState) (v : NodeController) :
      Step s (NodeManager.take s v).2
  | takeAtIdx (s : ManagerState) (idx : Int) :
      Step s (NodeManager.takeAt s idx).2
  | loadConfig (s : ManagerState) (cfg : Config) (s' : ManagerState) :
      NodeManager.load s cfg = some s' → Step s s'

inductive Reachable : ManagerState → Prop where
  | start (classes : List String) (s0 : ManagerState) :
      NodeManager.initMgr (mkManager classes) = some s0 → Reachable s0
  | step (s s' : ManagerState) : Reachable s → Step s s' → Reachable s'

inductive ReachableExt : ManagerState → Prop where
  | lift (s : ManagerState) : Reachable s → ReachableExt s
  | step (s s' : ManagerState) : ReachableExt s → Step s s' → ReachableExt s'
  | destroy (s : ManagerState) : ReachableExt s → ReachableExt (externalDestroyCurrent s)

/-- The slot-0 invariant: the current controller exists and is the tree's
first child, and every controller in the tree has an identity below the
fresh-id allocator (no live object aliases a future allocation). -/
def Inv (s : ManagerState) : Prop :=
  (∃ c, s.current = some c ∧ s.tree.head? = some c) ∧
  (∀ c ∈ s.tree, c.id < s.nextId)

theorem head?_mem {l : List NodeController} {a : NodeController}
    (h : l.head? = some a) : a ∈ l := by
  cases l with
  | nil => simp at h
  | cons b t =>
    simp only [List.head?_cons, Option.some.injEq] at h
    simp [h.symm]

theorem head?_append_left {l l2 : List NodeController} (h : l ≠ []) :
    (l ++ l2).head? = l.head? := by
  cases l with
  | nil => exact absurd rfl h
  | cons b t => simp

theorem listInsertAt_head? {t : List NodeController} {k : Nat} (v : NodeController)
    (hk : 1 ≤ k) (ht : t ≠ []) : (listInsertAt t k v).head? = t.head? := by
  cases t with
  | nil => exact absurd rfl ht
  | cons a t0 =>
    cases k with
    | zero => omega
    | succ k0 => simp [listInsertAt, List.take_succ_cons]

theorem listInsertAt_subset {t : List NodeController} {k : Nat} {v c : NodeController}
    (hc : c ∈ listInsertAt t k v) : c = v ∨ c ∈ t := by
  unfold listInsertAt at hc
  rcases List.mem_append.mp hc with h | h
  · exact Or.inr (List.take_subset k t h)
  · rcases List.mem_cons.mp h with h | h
    · exact Or.inl h
    · exact Or.inr (List.drop_subset k t h)

theorem propertyAddChild_head? {t : List NodeController} {i : Int} (c : NodeController)
    (hi : 1 ≤ i) (ht : t ≠ []) : (propertyAddChild t c i).head? = t.head? := by
  unfold propertyAddChild
  split_ifs with h
  · exact head?_append_left ht
  · exact listInsertAt_head? c (by omega) ht

theorem propertyAddChild_subset {t : List NodeController} {i : Int} {v c : NodeController}
    (hc : c ∈ propertyAddChild t v i) : c = v ∨ c ∈ t := by
  unfold propertyAddChild at hc
  split_ifs at hc with h
  · rcases List.mem_append.mp hc with h | h
    · exact Or.inr h
    · exact Or.inl (by simpa using h)
  · exact listInsertAt_subset hc

theorem containerAddChild_head? {t : List NodeController} {i : Int} (c : NodeController)
    (hi : 1 ≤ i ∨ i = 0) (ht : t ≠ []) : (containerAddChild t c i).head? = t.head? := by
  unfold containerAddChild
  rcases hi with hi | hi
  · rw [if_neg (by omega)]
    exact propertyAddChild_head? c hi ht
  · rw [if_pos hi]
    exact propertyAddChild_head? c (by omega) ht

theorem containerAddChild_subset {t : List NodeController} {i : Int} {v c : NodeController}
    (hc : c ∈ containerAddChild t v i) : c = v ∨ c ∈ t := by
  unfold containerAddChild at hc
  exact propertyAddChild_subset hc

theorem hook_id (b : Bool) (c q : NodeController) :
    (if b then c.mimic q else c.transitionFrom q) = c := by
  cases b <;> simp [NodeController.mimic, NodeController.transitionFrom]

theorem setCurrent_inv (s : ManagerState) (new : NodeController) (b : Bool)
    (htree : ∀ c ∈ s.tree, c.id < s.nextId)
    (hcur : ∀ p, s.current = some p → p.id ≠ new.id)
    (hnew : new.id < s.nextId) :
    Inv (NodeManager.setCurrent s new b).1 := by
  cases hc : s.current with
  | none =>
    simp only [NodeManager.setCurrent, hc, containerAddChildToFront_eq, hook_id]
    refine ⟨⟨_, rfl, rfl⟩, ?_⟩
    intro c hcm
    rcases List.mem_cons.mp hcm with h | h
    · subst h; simpa using hnew
    · exact htree c h
  | some p =>
    have hpne : p.id ≠ new.id := hcur p hc
    simp only [NodeManager.setCurrent, hc, containerAddChildToFront_eq, hook_id]
    have hfc : ({ new with name := "Current View" } : NodeController).id ≠ p.id := by
      simpa using fun hEq => hpne hEq.symm
    constructor
    · refine ⟨{ new with name := "Current View" }, rfl, ?_⟩
      rw [List.filter_cons, if_pos (by simpa using hfc)]
      simp
    · intro c hcm
      rw [List.filter_cons, if_pos (by simpa using hfc)] at hcm
      rcases List.mem_cons.mp hcm with h | h
      · subst h; simpa using hnew
      · exact htree c (List.mem_of_mem_filter h)

theorem create_none {s : ManagerState} {cid : String} (hm : cid ∉ s.factoryClasses) :
    NodeManager.create s cid = none := by
  unfold NodeManager.create factoryMake
  rw [if_neg hm]

theorem create_cases {s : ManagerState} {cid : String} {c : NodeController}
    {s1 : ManagerState} (h : NodeManager.create s cid = some (c, s1)) :
    cid ∈ s.factoryClasses ∧
    c = { id := s.nextId, class_id := cid, name := "", params := [], ready := true } ∧
    s1 = { s with nextId := s.nextId + 1 } := by
  by_cases hm : cid ∈ s.factoryClasses
  · rw [create_some s cid hm] at h
    simp only [Option.some.injEq, Prod.mk.injEq] at h
    exact ⟨hm, h.1.symm, h.2.symm⟩
  · rw [create_none hm] at h
    simp at h

theorem copy_cases {s : ManagerState} {src c : NodeController} {s1 : ManagerState}
    (h : NodeManager.copy s src = some (c, s1)) :
    c.id = s.nextId ∧ s1 = { s with nextId := s.nextId + 1 } := by
  unfold NodeManager.copy at h
  cases hcr : NodeManager.create s src.class_id with
  | none => rw [hcr] at h; simp at h
  | some pr =>
    obtain ⟨c0, s10⟩ := pr
    obtain ⟨_, hc0, hs10⟩ := create_cases hcr
    rw [hcr] at h
    simp only [Option.bind_eq_bind, Option.some_bind, Option.some.injEq,
      Prod.mk.injEq] at h
    obtain ⟨h1, h2⟩ := h
    constructor
    · simp [NodeController.load, hc0]
    · exact hs10

theorem inv_bump {s : ManagerState} (hI : Inv s) : Inv { s with nextId := s.nextId + 1 } :=
  ⟨hI.1, fun c hc => Nat.lt_succ_of_lt (hI.2 c hc)⟩

theorem append_fresh_inv {s : ManagerState} {v : NodeController}
    (hv : v.id < s.nextId) (hI : Inv s) : Inv { s with tree := s.tree ++ [v] } := by
  obtain ⟨⟨c, hc1, hc2⟩, hids⟩ := hI
  have hne : s.tree ≠ [] := by
    intro h
    rw [h] at hc2
    simp at hc2
  refine ⟨⟨c, hc1, ?_⟩, ?_⟩
  · rw [head?_append_left hne]
    exact hc2
  · intro c0 h0
    rcases List.mem_append.mp h0 with h | h
    · exact hids c0 h
    · simp only [List.mem_singleton] at h
      subst h
      exact hv

theorem take1_inv {s : ManagerState} (hI : Inv s) : Inv { s with tree := s.tree.take 1 } := by
  obtain ⟨⟨c, hc1, hc2⟩, hids⟩ := hI
  refine ⟨⟨c, hc1, ?_⟩, ?_⟩
  · cases ht : s.tree with
    | nil => rw [ht] at hc2; simp at hc2
    | cons a t0 =>
      rw [ht] at hc2
      simpa using hc2
  · intro c0 h0
    exact hids c0 (List.take_subset 1 s.tree h0)

theorem add_inv {s : ManagerState} {v : NodeController} {idx : Int}
    (hv : v.id < s.nextId) (hI : Inv s) : Inv (NodeManager.add s v idx) := by
  obtain ⟨⟨c, hc1, hc2⟩, hids⟩ := hI
  have hne : s.tree ≠ [] := by
    intro h
    rw [h] at hc2
    simp at hc2
  have hlen : 1 ≤ s.tree.length := List.length_pos.mpr hne
  refine ⟨⟨c, hc1, ?_⟩, ?_⟩
  · show (containerAddChild s.tree v _).head? = some c
    rw [containerAddChild_head? v ?_ hne]
    · exact hc2
    · split_ifs with h
      · left; omega
      · left; omega
  · intro c0 h0
    rcases containerAddChild_subset h0 with h | h
    · subst h; exact hv
    · exact hids c0 h

theorem takeChildAt_inv {s : ManagerState} {j : Int} (hj : 1 ≤ j) (hI : Inv s) :
    Inv (takeChildAt s j).2 := by
  unfold takeChildAt
  split_ifs with h
  · obtain ⟨⟨c, hc1, hc2⟩, hids⟩ := hI
    refine ⟨⟨c, hc1, ?_⟩, ?_⟩
    · cases ht : s.tree with
      | nil => rw [ht] at hc2; simp at hc2
      | cons a t0 =>
        rw [ht] at hc2
        show ((a :: t0).eraseIdx j.toNat).head? = some c
        have hk : j.toNat = (j.toNat - 1) + 1 := by omega
        rw [hk, List.eraseIdx_cons_succ]
        simpa using hc2
    · intro c0 h0
      exact hids c0 (List.eraseIdx_subset _ _ h0)
  · exact hI

theorem loadSavedLoop_inv (items : List Config) :
    ∀ (st st' : ManagerState), Inv st → loadSavedLoop st items = some st' → Inv st' := by
  induction items with
  | nil =>
    intro st st' hI h
    unfold loadSavedLoop at h
    simp only [Option.some.injEq] at h
    exact h ▸ hI
  | cons cfg rest ih =>
    intro st st' hI h
    unfold loadSavedLoop at h
    split at h
    · rename_i cid hg
      cases hcr : NodeManager.create st cid with
      | none => rw [hcr] at h; simp at h
      | some pr =>
        obtain ⟨c0, st1⟩ := pr
        obtain ⟨_, hc0, hst1⟩ := create_cases hcr
        rw [hcr] at h
        simp only [Option.bind_eq_bind, Option.some_bind] at h
        refine ih _ st' ?_ h
        rw [add_neg_state]
        apply append_fresh_inv
        · show (c0.load cfg).id < st1.nextId
          simp only [NodeController.load, hc0, hst1]
          omega
        · rw [hst1]
          exact inv_bump hI
    · exact ih st st' hI h

theorem containerAddChild_neg (t : List NodeController) (c : NodeController) :
    containerAddChild t c (-1) = t ++ [c] := by
  unfold containerAddChild propertyAddChild
  rw [if_neg (by omega : ¬ (-1 : Int) = 0), if_pos (Or.inl (by omega))]

theorem inv_current_ne_next {s : ManagerState} (hI : Inv s) :
    ∀ p, s.current = some p → p.id ≠ s.nextId := by
  intro p hp
  obtain ⟨⟨c, hc1, hc2⟩, hids⟩ := hI
  have hpc : p = c := by
    rw [hp] at hc1
    exact Option.some.inj hc1
  subst hpc
  have := hids p (head?_mem hc2)
  omega

theorem step_inv {s s' : ManagerState} (hI : Inv s) (hstep : Step s s') : Inv s' := by
  cases hstep with
  | setType cid s2 h =>
    unfold NodeManager.setCurrentNodeControllerType at h
    cases hcr : NodeManager.create s cid with
    | none => rw [hcr] at h; simp at h
    | some pr =>
      obtain ⟨c0, s1⟩ := pr
      obtain ⟨_, hc0, hs1⟩ := create_cases hcr
      rw [hcr] at h
      simp only [Option.bind_eq_bind, Option.some_bind, Option.pure_def,
        Option.some.injEq] at h
      rw [← h]
      subst hs1
      apply setCurrent_inv
      · exact fun c hc => Nat.lt_succ_of_lt (hI.2 c hc)
      · intro p hp
        have := inv_current_ne_next hI p hp
        simp [hc0]
        omega
      · simp [hc0]
  | fromView src s2 h =>
    unfold NodeManager.setCurrentFrom at h
    split at h
    · simp only [Option.map_some', Option.some.injEq] at h
      rw [← h]
      exact hI
    · rename_i srcv
      split_ifs at h with hs
      · simp only [Option.map_some', Option.some.injEq] at h
        rw [← h]
        exact hI
      · cases hcp : NodeManager.copy s srcv with
        | none => rw [hcp] at h; simp at h
        | some pr =>
          obtain ⟨c0, s1⟩ := pr
          obtain ⟨hid, hs1⟩ := copy_cases hcp
          rw [hcp] at h
          simp only [Option.bind_eq_bind, Option.some_bind] at h
          cases hsc : NodeManager.setCurrent s1 c0 false with
          | mk s2v effv =>
            rw [hsc] at h
            simp only [Option.pure_def, Option.map_some', Option.some.injEq] at h
            have hInv2 : Inv (NodeManager.setCurrent s1 c0 false).1 := by
              subst hs1
              apply setCurrent_inv
              · exact fun c hc => Nat.lt_succ_of_lt (hI.2 c hc)
              · intro p hp
                have := inv_current_ne_next hI p hp
                rw [hid]
                omega
              · show c0.id < s.nextId + 1
                have h2 : c0.id = s.nextId := hid
                omega
            rw [hsc] at hInv2
            exact h ▸ hInv2
  | copyList s2 h =>
    unfold NodeManager.copyCurrentToList at h
    split at h
    case _ cur hc =>
      cases hcp : NodeManager.copy s cur with
      | none => rw [hcp] at h; simp at h
      | some pr =>
        obtain ⟨c0, s1⟩ := pr
        obtain ⟨hid, hs1⟩ := copy_cases hcp
        rw [hcp] at h
        simp only [Option.bind_eq_bind, Option.some_bind, Option.pure_def,
          Option.some.injEq] at h
        rw [← h, containerAddChild_neg]
        subst hs1
        apply append_fresh_inv
        · show ({ c0 with name := c0.class_id } : NodeController).id < s.nextId + 1
          have h1 : ({ c0 with name := c0.class_id } : NodeController).id = s.nextId := hid
          omega
        · exact inv_bump hI
    case _ =>
      simp only [Option.pure_def, Option.some.injEq] at h
      rw [← h]
      exact hI
  | addView v idx hv => exact add_inv hv hI
  | takeView v =>
    show Inv (NodeManager.take s v).2
    unfold NodeManager.take
    cases hf : (List.range (NodeManager.getNumViews s).toNat).find?
        (fun (i : Nat) => (NodeManager.getViewAt s i).map (fun c => c.id) = some v.id) with
    | none => simp only [hf]; exact hI
    | some k =>
      simp only [hf]
      have hj : (1 : Int) ≤ (k : Int) + 1 := by omega
      exact takeChildAt_inv hj hI
  | takeAtIdx idx =>
    show Inv (NodeManager.takeAt s idx).2
    unfold NodeManager.takeAt
    split_ifs with h
    · exact hI
    · have hj : (1 : Int) ≤ idx + 1 := by omega
      exact takeChildAt_inv hj hI
  | loadConfig cfg s2 h =>
    unfold NodeManager.load at h
    simp only [Option.bind_eq_bind, Option.pure_def] at h
    split at h
    · rename_i cid hg
      cases hcr : NodeManager.create s cid with
      | none => rw [hcr] at h; simp at h
      | some pr =>
        obtain ⟨c0, s1⟩ := pr
        obtain ⟨_, hc0, hs1⟩ := create_cases hcr
        rw [hcr] at h
        simp only [Option.bind_eq_bind, Option.some_bind] at h
        refine loadSavedLoop_inv _ _ _ ?_ h
        apply take1_inv
        subst hs1
        apply setCurrent_inv
        · exact fun c hc => Nat.lt_succ_of_lt (hI.2 c hc)
        · intro p hp
          have := inv_current_ne_next hI p hp
          simp [NodeController.load, hc0]
          omega
        · simp [NodeController.load, hc0]
    · simp only [Option.bind_eq_bind, Option.some_bind] at h
      exact loadSavedLoop_inv _ _ _ (take1_inv hI) h

theorem reachable_inv {s : ManagerState} (h : Reachable s) : Inv s := by
  induction h with
  | start classes s0 h0 =>
    unfold NodeManager.initMgr at h0
    cases hcr : NodeManager.create (mkManager classes) "rviz/Orbit" with
    | none => rw [hcr] at h0; simp at h0
    | some pr =>
      obtain ⟨c0, s1⟩ := pr
      obtain ⟨_, hc0, hs1⟩ := create_cases hcr
      rw [hcr] at h0
      simp only [Option.bind_eq_bind, Option.some_bind, Option.pure_def,
        Option.some.injEq] at h0
      rw [← h0]
      subst hs1
      apply setCurrent_inv
      · intro c hc
        simp [mkManager] at hc
      · intro p hp
        simp [mkManager] at hp
      · simp [mkManager, hc0]
  | step s s2 hr hst ih => exact step_inv ih hst

/-- The orbit controller created by `initialize` on a fresh manager. -/
def orbW : NodeController :=
  { id := 0, class_id := "rviz/Orbit", name := "Current View", params := [], ready := true }

/-- The state of a freshly initialized manager whose factory accepts only
"rviz/Orbit": the created orbit controller is current and fills tree slot 0. -/
def s0W : ManagerState :=
  { factoryClasses := ["rviz/Orbit"], tree := [orbW], current := some orbW,
    connected := [0], nextId := 1 }

/-- C9: in every reachable manager state, tree slot 0 holds the current
controller (there is at most one current controller: the single `current_`
pointer, whose target sits at slot 0); the container's `addChild` coerces a
requested index of 0 to 1, so ordinary insertions (`add`,
`copyCurrentToList`, and load's saved entries, which go through `add`)
never occupy slot 0; only `setCurrent`, via `addChildToFront`, places a
controller at slot 0, and it deletes the previous current when doing so. -/
theorem C9_slot_zero_reserved (s : ManagerState) (hreach : Reachable s) :
    (∃ c, s.current = some c ∧ s.tree.head? = some c) ∧
    (∀ (t : List NodeController) (ch : NodeController),
      containerAddChild t ch 0 = containerAddChild t ch 1) ∧
    (∀ (v : NodeController) (idx : Int),
      (NodeManager.add s v idx).tree.head? = s.tree.head? ∧
      (NodeManager.add s v idx).current = s.current) ∧
    (∀ s', NodeManager.copyCurrentToList s = some s' →
      s'.tree.head? = s.tree.head? ∧ s'.current = s.current) ∧
    (∀ (nc p : NodeController) (b : Bool), s.current = some p → nc.id ≠ p.id →
      ((NodeManager.setCurrent s nc b).1.tree.head?.map (fun c => c.id) = some nc.id ∧
       (∀ c ∈ (NodeManager.setCurrent s nc b).1.tree, c.id ≠ p.id) ∧
       (NodeManager.setCurrent s nc b).2.deleted = some p.id)) := by
  have hI := reachable_inv hreach
  obtain ⟨⟨c, hc1, hc2⟩, hids⟩ := hI
  have hne : s.tree ≠ [] := by
    intro h
    rw [h] at hc2
    simp at hc2
  have hlen : 1 ≤ s.tree.length := List.length_pos.mpr hne
  refine ⟨⟨c, hc1, hc2⟩, ?_, ?_, ?_, ?_⟩
  · intro t ch
    simp [containerAddChild]
  · intro v idx
    constructor
    · show (containerAddChild s.tree v _).head? = s.tree.head?
      apply containerAddChild_head? v ?_ hne
      split_ifs with h
      · left; omega
      · left; omega
    · rfl
  · intro s' h
    unfold NodeManager.copyCurrentToList at h
    split at h
    case _ cur hc =>
      cases hcp : NodeManager.copy s cur with
      | none => rw [hcp] at h; simp at h
      | some pr =>
        obtain ⟨c0, s1⟩ := pr
        obtain ⟨hid, hs1⟩ := copy_cases hcp
        rw [hcp] at h
        simp only [Option.bind_eq_bind, Option.some_bind, Option.pure_def,
          Option.some.injEq] at h
        rw [← h]
        subst hs1
        constructor
        · show (containerAddChild s.tree _ (-1)).head? = s.tree.head?
          rw [containerAddChild_neg]
          exact head?_append_left hne
        · rfl
    case _ =>
      simp only [Option.pure_def, Option.some.injEq] at h
      rw [← h]
      exact ⟨rfl, rfl⟩
  · intro nc p b hp hnp
    have hfc : ({ nc with name := "Current View" } : NodeController).id ≠ p.id := by
      simpa using hnp
    simp only [NodeManager.setCurrent, hp, containerAddChildToFront_eq, hook_id]
    refine ⟨?_, ?_, rfl⟩
    · rw [List.filter_cons, if_pos (by simpa using hfc)]
      simp
    · intro c0 hc0
      rw [List.filter_cons, if_pos (by simpa using hfc)] at hc0
      rcases List.mem_cons.mp hc0 with h | h
      · subst h; exact hfc
      · simpa using (List.mem_filter.mp h).2

/-- Witness for C9: the freshly initialized one-class manager state. -/
theorem C9_slot_zero_reserved_witness :
    (∃ c, s0W.current = some c ∧ s0W.tree.head? = some c) ∧
    (∀ (t : List NodeController) (ch : NodeController),
      containerAddChild t ch 0 = containerAddChild t ch 1) ∧
    (∀ (v : NodeController) (idx : Int),
      (NodeManager.add s0W v idx).tree.head? = s0W.tree.head? ∧
      (NodeManager.add s0W v idx).current = s0W.current) ∧
    (∀ s', NodeManager.copyCurrentToList s0W = some s' →
      s'.tree.head? = s0W.tree.head? ∧ s'.current = s0W.current) ∧
    (∀ (nc p : NodeController) (b : Bool), s0W.current = some p → nc.id ≠ p.id →
      ((NodeManager.setCurrent s0W nc b).1.tree.head?.map (fun c => c.id) = some nc.id ∧
       (∀ c ∈ (NodeManager.setCurrent s0W nc b).1.tree, c.id ≠ p.id) ∧
       (NodeManager.setCurrent s0W nc b).2.deleted = some p.id)) :=
  C9_slot_zero_reserved s0W (Reachable.start ["rviz/Orbit"] s0W (by decide))

/-- C10: `save` dereferences `getCurrent()` unconditionally, so it faults
exactly when no current controller exists and succeeds whenever one does;
and a state with no current controller is reachable once external
destruction of the current controller (observed by `onCurrentDestroyed`,
which nulls the pointer) is taken into account. -/
theorem C10_save_requires_current :
    (∀ s : ManagerState, NodeManager.getCurrent s = none → NodeManager.save s = none) ∧
    (∀ (s : ManagerState) (cur : NodeController), NodeManager.getCurrent s = some cur →
      NodeManager.save s ≠ none) ∧
    (∃ s : ManagerState, ReachableExt s ∧ NodeManager.getCurrent s = none) := by
  refine ⟨?_, ?_, ?_⟩
  · intro s h
    simp only [NodeManager.getCurrent] at h
    simp [NodeManager.save, h]
  · intro s cur h
    rw [save_eq s cur h]
    simp
  · refine ⟨externalDestroyCurrent s0W,
      ReachableExt.destroy s0W
        (ReachableExt.lift s0W (Reachable.start ["rviz/Orbit"] s0W (by decide))), ?_⟩
    decide

/-- Witness for C10: after external destruction of the initialized manager's
current controller, `save` faults. -/
theorem C10_save_requires_current_witness :
    NodeManager.getCurrent (externalDestroyCurrent s0W) = none ∧
    NodeManager.save (externalDestroyCurrent s0W) = none ∧
    NodeManager.getCurrent s0W = some orbW ∧
    NodeManager.save s0W ≠ none :=
  ⟨by decide,
   C10_save_requires_current.1 (externalDestroyCurrent s0W) (by decide),
   by decide,
   C10_save_requires_current.2.1 s0W orbW (by decide)⟩

end RvizTopmap
